import Mathlib

/-!
Verification of the VFSForGit ProjFS.Mac kernel extension headers
(`Memory.hpp`, `PrjFSProviderUserClient.hpp`) against their
natural-language specification.

The memory allocator helpers are embedded directly from the source of
`Memory.hpp`.  The provider channel, root registry and user-client state
are declared but not implemented in the available sources, so those parts
are modelled from the specification text.  Definitions come first, then
the theorems.
-/

namespace VFSForGit

/-- The 32-bit unsigned bound `UINT32_MAX` used by the allocator. -/
def UINT32_MAX : Nat := 4294967295

/-- Modulus of `size_t` on the 64-bit target: `2^64`. -/
def SIZE_T_MOD : Nat := 18446744073709551616

/-- Embedding of `Memory_AllocArray<T>(uint32_t arrayLength)` from
`Memory.hpp`.  `sizeofT` stands for `sizeof(T)`, `alloc` for the external
`Memory_Alloc` function.  The C++ computes
`size_t allocBytes = arrayLength * sizeof(T)` (64-bit `size_t`
arithmetic, hence the `% SIZE_T_MOD`), returns `nullptr` (`none`) when
`allocBytes > UINT32_MAX`, and otherwise forwards
`static_cast<uint32_t>(allocBytes)` to `Memory_Alloc`.  The second
component of the result records the list of sizes passed to
`Memory_Alloc`, so "never calls the allocator" is expressible. -/
def Memory_AllocArray (sizeofT arrayLength : Nat) (alloc : Nat → Option Nat) :
    Option Nat × List Nat :=
  let allocBytes : Nat := (arrayLength * sizeofT) % SIZE_T_MOD
  if UINT32_MAX < allocBytes then
    (none, [])
  else
    (alloc (allocBytes % 4294967296), [allocBytes % 4294967296])

/-- Outcome of `Memory_FreeArray`: either the `assert` fires, or
`Memory_Free` is reached with the recorded byte size. -/
inductive FreeOutcome where
  | assertFailed : FreeOutcome
  | freed : Nat → FreeOutcome
deriving DecidableEq, Repr

/-- Embedding of `Memory_FreeArray<T>(T* array, uint32_t arrayLength)` from
`Memory.hpp`.  `machAssert` is true in debug kernel builds, where
`assert` from `kern/assert.h` is active; in release builds it expands to
nothing and control falls through to
`Memory_Free(array, static_cast<uint32_t>(arrayBytes))`. -/
def Memory_FreeArray (machAssert : Bool) (sizeofT arrayLength : Nat) : FreeOutcome :=
  let arrayBytes : Nat := (arrayLength * sizeofT) % SIZE_T_MOD
  if machAssert ∧ UINT32_MAX < arrayBytes then
    FreeOutcome.assertFailed
  else
    FreeOutcome.freed (arrayBytes % 4294967296)

/-- Modelled from the spec: the per-provider channel state of
`PrjFSProviderUserClient` (§3 ProviderChannel), whose implementation is
not in the available sources.  `pendingRequests` maps message identifiers
to blocked callers (here the list of pending identifiers),
`nextMessageId` is the monotonically increasing identifier counter, and
`chanOpen` is the `Open`/`Closed` state. -/
structure Channel where
  chanOpen : Bool
  nextMessageId : Nat
  pendingRequests : List Nat
deriving DecidableEq, Repr

/-- A freshly connected channel: `Open`, no pending requests. -/
def Channel.connect : Channel :=
  { chanOpen := true, nextMessageId := 0, pendingRequests := [] }

/-- Failure delivered to a blocked caller. -/
inductive ChanFailure where
  | providerDisconnected : ChanFailure
deriving DecidableEq, Repr

/-- Modelled from the spec: `sendRequest` (the blocking half of
`sendMessage`), whose implementation is not in the available sources.
On an open channel it assigns `nextMessageId` as the correlation id,
records it in `pendingRequests` and increments the counter; on a closed
channel it fails. -/
def sendRequest (c : Channel) : Option (Channel × Nat) :=
  if c.chanOpen then
    some ({ chanOpen := true, nextMessageId := c.nextMessageId + 1,
            pendingRequests := c.nextMessageId :: c.pendingRequests },
          c.nextMessageId)
  else
    none

/-- Modelled from the spec: `kernelMessageResponse(messageId, responseType)`,
whose implementation is not in the available sources.  It looks up
`messageId` in `pendingRequests`; if present it removes the entry and
wakes the one blocked caller (the second component counts woken
callers), otherwise it is a no-op. -/
def kernelMessageResponse (c : Channel) (messageId : Nat) : Channel × Nat :=
  if messageId ∈ c.pendingRequests then
    ({ c with pendingRequests := c.pendingRequests.erase messageId }, 1)
  else
    (c, 0)

/-- Modelled from the spec: `clientClose` / `cleanupProviderRegistration`
channel teardown, whose implementation is not in the available sources.
It transitions the channel to `Closed`, drains `pendingRequests`, and
resolves each entry with a `ProviderDisconnected` failure (returned as
the list of resolutions). -/
def closeChannel (c : Channel) : Channel × List (Nat × ChanFailure) :=
  ({ chanOpen := false, nextMessageId := c.nextMessageId, pendingRequests := [] },
   c.pendingRequests.map (fun id => (id, ChanFailure.providerDisconnected)))

/-- Channel invariant: every pending identifier is below the counter. -/
def pendingBounded (c : Channel) : Prop :=
  ∀ id ∈ c.pendingRequests, id < c.nextMessageId

instance (c : Channel) : Decidable (pendingBounded c) := by
  unfold pendingBounded
  infer_instance

/-- Number of occurrences of a resolution record in a resolution list. -/
def countOccur (x : Nat × ChanFailure) : List (Nat × ChanFailure) → Nat
  | [] => 0
  | y :: t => (if y = x then 1 else 0) + countOccur x t

/-- An operation on a channel during its lifetime. -/
inductive ChanOp where
  | send : ChanOp
  | respond : Nat → ChanOp
  | close : ChanOp
deriving DecidableEq, Repr

/-- One channel operation: the resulting state and the identifiers
assigned by this step (one for a successful send, none otherwise). -/
def chanStep (c : Channel) : ChanOp → Channel × List Nat
  | ChanOp.send =>
    match sendRequest c with
    | some (c2, id) => (c2, [id])
    | none => (c, [])
  | ChanOp.respond id => ((kernelMessageResponse c id).1, [])
  | ChanOp.close => ((closeChannel c).1, [])

/-- Run a sequence of channel operations, collecting every assigned
message identifier in order. -/
def runOps (c : Channel) : List ChanOp → Channel × List Nat
  | [] => (c, [])
  | op :: rest =>
    let s := chanStep c op
    let r := runOps s.1 rest
    (r.1, s.2 ++ r.2)

/-- A path, as its non-empty components between separators. -/
def PathComponents : Type := List (List Char)

instance : DecidableEq PathComponents := by
  unfold PathComponents
  infer_instance

/-- Split a raw character list at each separator character. -/
def splitChars : List Char → List Char → List (List Char)
  | [], acc => [acc.reverse]
  | c :: rest, acc =>
    if c = '/' then acc.reverse :: splitChars rest []
    else splitChars rest (c :: acc)

/-- Modelled from the spec: decompose a path string into its non-empty
components, so that component alignment ("/a/b" contains "/a/b/c" but
not "/a/bc") is expressible. -/
def splitPath (s : String) : PathComponents :=
  (splitChars s.data []).filter (fun comp => comp ≠ [])

/-- Whether the first component list is an initial segment of the
second. -/
def isLeading : List (List Char) → List (List Char) → Bool
  | [], _ => true
  | _ :: _, [] => false
  | a :: as, b :: bs => a = b && isLeading as bs

/-- Modelled from the spec: a registered root contains a queried path
exactly when the root's components lead the path's components
(longest-prefix matching is component-aligned). -/
def rootContains (rootPath p : String) : Bool :=
  isLeading (splitPath rootPath) (splitPath p)

/-- Modelled from the spec: the root registry, a table of registered
roots, each binding a root path to a handle. -/
structure Registry where
  roots : List (String × Nat)
deriving DecidableEq, Repr

/-- The empty registry. -/
def Registry.empty : Registry := ⟨[]⟩

/-- Modelled from the spec: `register(path, providerChannel)`, whose
implementation is not in the available sources.  It fails when `path` is
already the root of an existing registration, and otherwise makes the
new root visible. -/
def Registry.registerRoot (reg : Registry) (p : String) (h : Nat) :
    Option Registry :=
  if reg.roots.any (fun r => r.1 = p) then none
  else some ⟨(p, h) :: reg.roots⟩

/-- Scan the table for a containing root of maximal component depth. -/
def lookupScan (p : String) : List (String × Nat) → Option (String × Nat)
  | [] => none
  | (r, h) :: rest =>
    match lookupScan p rest with
    | none => if rootContains r p then some (r, h) else none
    | some (r2, h2) =>
      if rootContains r p then
        if (splitPath r2).length < (splitPath r).length then some (r, h)
        else some (r2, h2)
      else some (r2, h2)

/-- Modelled from the spec: `lookup(path) -> handle | NotFound`, whose
implementation is not in the available sources.  It returns the handle
of the most specific (deepest, component-aligned) registered root
containing `path`, or `none`. -/
def Registry.lookupPath (reg : Registry) (p : String) : Option Nat :=
  (lookupScan p reg.roots).map (fun r => r.2)

/-- An operation on a provider user client over its lifetime. -/
inductive ClientOp where
  | registerRoot : Nat → ClientOp
  | sendMsg : ClientOp
  | respond : Nat → ClientOp
  | closeClient : ClientOp
deriving DecidableEq, Repr

/-- Modelled from the spec: the provider user client's binding state,
its single `virtualizationRootHandle` field; `none` stands for
`RootHandle_None`. -/
structure ClientState where
  virtualizationRootHandle : Option Nat
deriving DecidableEq, Repr

/-- A freshly initialized client: `RootHandle_None`. -/
def ClientState.init : ClientState := ⟨none⟩

/-- Modelled from the spec: one client operation.
`registerVirtualizationRoot` succeeds only on an unbound client and
binds it to the given root; every other operation (message send,
response delivery, teardown) leaves the binding field alone, and a
second registration attempt fails without rebinding. -/
def clientStep (s : ClientState) : ClientOp → ClientState
  | ClientOp.registerRoot h =>
    if s.virtualizationRootHandle = none then ⟨some h⟩ else s
  | ClientOp.sendMsg => s
  | ClientOp.respond _ => s
  | ClientOp.closeClient => s

/-- Run a client through a sequence of operations. -/
def runClient (s : ClientState) : List ClientOp → ClientState
  | [] => s
  | op :: rest => runClient (clientStep s op) rest

/-- The root bound by the first registration attempt in a trace. -/
def firstRegister : List ClientOp → Option Nat
  | [] => none
  | ClientOp.registerRoot h :: _ => some h
  | ClientOp.sendMsg :: rest => firstRegister rest
  | ClientOp.respond _ :: rest => firstRegister rest
  | ClientOp.closeClient :: rest => firstRegister rest

/-!
## Theorems

Helper lemmas first, then one theorem (plus witness or counterexample)
per claim.
-/

/-- The overflow check in `Memory_AllocArray` compares the `size_t`
product, so any product below `2^64` is compared exactly. -/
theorem allocArray_of_lt_mod (sizeofT arrayLength : Nat)
    (h2 : arrayLength * sizeofT < SIZE_T_MOD) (alloc : Nat → Option Nat)
    (h1 : UINT32_MAX < arrayLength * sizeofT) :
    Memory_AllocArray sizeofT arrayLength alloc = (none, []) := by
  unfold Memory_AllocArray
  simp only [Nat.mod_eq_of_lt h2]
  simp [h1]

/-- On a duplicate-free list, erasing an element removes it entirely. -/
theorem not_mem_erase_of_nodup {a : Nat} {l : List Nat} (h : l.Nodup) :
    a ∉ l.erase a := by
  induction l with
  | nil => simp
  | cons b t ih =>
    rcases List.nodup_cons.mp h with ⟨hb, ht⟩
    rw [List.erase_cons]
    by_cases hab : b = a
    · subst hab
      simpa using hb
    · have hba : (b == a) = false := by simp [hab]
      rw [hba]
      simp only [Bool.false_eq_true, if_false, List.mem_cons, not_or]
      exact ⟨fun heq => hab heq.symm, ih ht⟩

/-- A resolution for an id absent from `l` occurs zero times. -/
theorem countOccur_map_zero {id : Nat} {l : List Nat} (h : id ∉ l) :
    countOccur (id, ChanFailure.providerDisconnected)
      (l.map (fun i => (i, ChanFailure.providerDisconnected))) = 0 := by
  induction l with
  | nil => rfl
  | cons b t ih =>
    have hb : b ≠ id := fun hab => h (hab ▸ List.mem_cons_self b t)
    have ht : id ∉ t := fun hmem => h (List.mem_cons_of_mem b hmem)
    simp only [List.map_cons, countOccur]
    rw [if_neg (by simp [hb]), ih ht]

/-- A resolution for an id occurring once in a duplicate-free `l` occurs
exactly once in the mapped resolution list. -/
theorem countOccur_map_one {id : Nat} {l : List Nat} (h : l.Nodup)
    (hid : id ∈ l) :
    countOccur (id, ChanFailure.providerDisconnected)
      (l.map (fun i => (i, ChanFailure.providerDisconnected))) = 1 := by
  induction l with
  | nil => cases hid
  | cons b t ih =>
    rcases List.nodup_cons.mp h with ⟨hb, ht⟩
    simp only [List.map_cons, countOccur]
    rcases List.mem_cons.mp hid with heq | hmem
    · rw [if_pos (by rw [heq]), countOccur_map_zero (heq ▸ hb)]
    · have hbid : b ≠ id := fun hab => hb (hab ▸ hmem)
      rw [if_neg (by simp [hbid]), ih ht hmem]

/-- Every identifier assigned along a trace is at least the starting
counter value, and the counter never decreases. -/
theorem runOps_lb (ops : List ChanOp) (c : Channel) :
    (∀ id ∈ (runOps c ops).2, c.nextMessageId ≤ id) ∧
    c.nextMessageId ≤ (runOps c ops).1.nextMessageId := by
  induction ops generalizing c with
  | nil => exact ⟨fun id h => absurd h (List.not_mem_nil id), le_refl _⟩
  | cons op rest ih =>
    cases op with
    | send =>
      by_cases hopen : c.chanOpen = true
      · have hstep : chanStep c ChanOp.send =
            ({ chanOpen := true, nextMessageId := c.nextMessageId + 1,
               pendingRequests := c.nextMessageId :: c.pendingRequests },
             [c.nextMessageId]) := by
          simp [chanStep, sendRequest, hopen]
        show (∀ id ∈ (runOps c (ChanOp.send :: rest)).2, _) ∧ _
        simp only [runOps, hstep]
        obtain ⟨ih1, ih2⟩ := ih _
        constructor
        · intro id hmem
          rcases List.mem_append.mp hmem with hl | hr
          · simp only [List.mem_singleton] at hl
            exact hl ▸ le_refl _
          · exact le_trans (Nat.le_succ _) (ih1 id hr)
        · exact le_trans (Nat.le_succ _) ih2
      · have hstep : chanStep c ChanOp.send = (c, []) := by
          simp [chanStep, sendRequest, hopen]
        simp only [runOps, hstep]
        obtain ⟨ih1, ih2⟩ := ih c
        exact ⟨fun id h => ih1 id (by simpa using h), ih2⟩
    | respond rid =>
      have hnext : ((kernelMessageResponse c rid).1).nextMessageId =
          c.nextMessageId := by
        unfold kernelMessageResponse
        by_cases h : rid ∈ c.pendingRequests <;> simp [h]
      simp only [runOps, chanStep]
      obtain ⟨ih1, ih2⟩ := ih (kernelMessageResponse c rid).1
      rw [hnext] at ih1 ih2
      exact ⟨fun id h => ih1 id (by simpa using h), ih2⟩
    | close =>
      simp only [runOps, chanStep, closeChannel]
      obtain ⟨ih1, ih2⟩ := ih (Channel.mk false c.nextMessageId [])
      exact ⟨fun id h => ih1 id (by simpa using h), ih2⟩

/-- The identifiers assigned along a trace are strictly increasing. -/
theorem runOps_pairwise (ops : List ChanOp) (c : Channel) :
    ((runOps c ops).2).Pairwise (· < ·) := by
  induction ops generalizing c with
  | nil => exact List.Pairwise.nil
  | cons op rest ih =>
    cases op with
    | send =>
      by_cases hopen : c.chanOpen = true
      · have hstep : chanStep c ChanOp.send =
            ({ chanOpen := true, nextMessageId := c.nextMessageId + 1,
               pendingRequests := c.nextMessageId :: c.pendingRequests },
             [c.nextMessageId]) := by
          simp [chanStep, sendRequest, hopen]
        simp only [runOps, hstep]
        rw [List.singleton_append]
        refine List.Pairwise.cons ?_ (ih _)
        intro id hmem
        have := (runOps_lb rest _).1 id hmem
        exact lt_of_lt_of_le (Nat.lt_succ_self _) this
      · have hstep : chanStep c ChanOp.send = (c, []) := by
          simp [chanStep, sendRequest, hopen]
        simp only [runOps, hstep, List.nil_append]
        exact ih c
    | respond rid =>
      simp only [runOps, chanStep, List.nil_append]
      exact ih _
    | close =>
      simp only [runOps, chanStep, List.nil_append]
      exact ih _

/-- The channel invariant (every pending id below the counter) is
preserved by every operation along a trace. -/
theorem runOps_pendingBounded (ops : List ChanOp) (c : Channel)
    (hinv : pendingBounded c) : pendingBounded (runOps c ops).1 := by
  induction ops generalizing c with
  | nil => exact hinv
  | cons op rest ih =>
    cases op with
    | send =>
      by_cases hopen : c.chanOpen = true
      · have hstep : chanStep c ChanOp.send =
            ({ chanOpen := true, nextMessageId := c.nextMessageId + 1,
               pendingRequests := c.nextMessageId :: c.pendingRequests },
             [c.nextMessageId]) := by
          simp [chanStep, sendRequest, hopen]
        simp only [runOps, hstep]
        apply ih
        intro id hid
        rcases List.mem_cons.mp hid with heq | hmem
        · exact heq ▸ Nat.lt_succ_self _
        · exact Nat.lt_succ_of_lt (hinv id hmem)
      · have hstep : chanStep c ChanOp.send = (c, []) := by
          simp [chanStep, sendRequest, hopen]
        simp only [runOps, hstep]
        exact ih c hinv
    | respond rid =>
      simp only [runOps, chanStep]
      apply ih
      unfold kernelMessageResponse
      by_cases hmem : rid ∈ c.pendingRequests
      · rw [if_pos hmem]
        intro id hid
        exact hinv id (List.mem_of_mem_erase hid)
      · rw [if_neg hmem]
        exact hinv
    | close =>
      simp only [runOps, chanStep, closeChannel]
      apply ih
      intro id hid
      exact absurd hid (List.not_mem_nil id)

/-- A scan returning `NotFound` means no registered root contains the
queried path. -/
theorem lookupScan_none (p : String) (l : List (String × Nat))
    (hnone : lookupScan p l = none) :
    ∀ r2 h2, (r2, h2) ∈ l → rootContains r2 p = false := by
  induction l with
  | nil => intro r2 h2 hmem; cases hmem
  | cons entry rest ih =>
    obtain ⟨re, he⟩ := entry
    intro r2 h2 hmem
    rcases hrest : lookupScan p rest with _ | ⟨rr, hr⟩
    · simp only [lookupScan, hrest] at hnone
      by_cases hc : rootContains re p = true
      · rw [if_pos hc] at hnone
        cases hnone
      · rcases List.mem_cons.mp hmem with heq | hmem2
        · have : r2 = re := congrArg Prod.fst heq
          rw [this]
          exact Bool.not_eq_true _ |>.mp hc
        · exact ih hrest r2 h2 hmem2
    · simp only [lookupScan, hrest] at hnone
      by_cases hc : rootContains re p = true
      · rw [if_pos hc] at hnone
        by_cases hlt : (splitPath rr).length < (splitPath re).length
        · rw [if_pos hlt] at hnone
          cases hnone
        · rw [if_neg hlt] at hnone
          cases hnone
      · rw [if_neg hc] at hnone
        cases hnone

/-- Any root returned by the scan is a registered containing root of
maximal depth among the containing roots. -/
theorem lookupScan_spec (p : String) (l : List (String × Nat))
    (r : String) (h : Nat) (hfind : lookupScan p l = some (r, h)) :
    (r, h) ∈ l ∧ rootContains r p = true ∧
    ∀ r2 h2, (r2, h2) ∈ l → rootContains r2 p = true →
      (splitPath r2).length ≤ (splitPath r).length := by
  induction l generalizing r h with
  | nil => cases hfind
  | cons entry rest ih =>
    obtain ⟨re, he⟩ := entry
    rcases hrest : lookupScan p rest with _ | ⟨rr, hr⟩
    · simp only [lookupScan, hrest] at hfind
      by_cases hc : rootContains re p = true
      · rw [if_pos hc] at hfind
        have hre : re = r := congrArg Prod.fst (Option.some_inj.mp hfind)
        have hhe : he = h := congrArg Prod.snd (Option.some_inj.mp hfind)
        subst hre
        subst hhe
        refine ⟨List.mem_cons_self _ _, hc, ?_⟩
        intro r2 h2 hmem hc2
        rcases List.mem_cons.mp hmem with heq | hmem2
        · injection heq with e1 e2
          exact le_of_eq (by rw [e1])
        · rw [lookupScan_none p rest hrest r2 h2 hmem2] at hc2
          cases hc2
      · rw [if_neg hc] at hfind
        cases hfind
    · simp only [lookupScan, hrest] at hfind
      obtain ⟨hm, hcr, hmax⟩ := ih rr hr hrest
      by_cases hc : rootContains re p = true
      · rw [if_pos hc] at hfind
        by_cases hlt : (splitPath rr).length < (splitPath re).length
        · rw [if_pos hlt] at hfind
          have hre : re = r := congrArg Prod.fst (Option.some_inj.mp hfind)
          have hhe : he = h := congrArg Prod.snd (Option.some_inj.mp hfind)
          subst hre
          subst hhe
          refine ⟨List.mem_cons_self _ _, hc, ?_⟩
          intro r2 h2 hmem hc2
          rcases List.mem_cons.mp hmem with heq | hmem2
          · injection heq with e1 e2
            exact le_of_eq (by rw [e1])
          · exact le_trans (hmax r2 h2 hmem2 hc2) (le_of_lt hlt)
        · rw [if_neg hlt] at hfind
          have hrr : rr = r := congrArg Prod.fst (Option.some_inj.mp hfind)
          have hhr : hr = h := congrArg Prod.snd (Option.some_inj.mp hfind)
          subst hrr
          subst hhr
          refine ⟨List.mem_cons_of_mem _ hm, hcr, ?_⟩
          intro r2 h2 hmem hc2
          rcases List.mem_cons.mp hmem with heq | hmem2
          · injection heq with e1 e2
            rw [e1]
            exact Nat.not_lt.mp hlt
          · exact hmax r2 h2 hmem2 hc2
      · rw [if_neg hc] at hfind
        have hrr : rr = r := congrArg Prod.fst (Option.some_inj.mp hfind)
        have hhr : hr = h := congrArg Prod.snd (Option.some_inj.mp hfind)
        subst hrr
        subst hhr
        refine ⟨List.mem_cons_of_mem _ hm, hcr, ?_⟩
        intro r2 h2 hmem hc2
        rcases List.mem_cons.mp hmem with heq | hmem2
        · injection heq with e1 e2
          rw [e1] at hc2
          exact absurd hc2 hc
        · exact hmax r2 h2 hmem2 hc2

/-- When no registered root contains the path, the scan finds nothing. -/
theorem lookupScan_eq_none (p : String) (l : List (String × Nat))
    (h : ∀ r h2, (r, h2) ∈ l → rootContains r p = false) :
    lookupScan p l = none := by
  induction l with
  | nil => rfl
  | cons entry rest ih =>
    obtain ⟨re, he⟩ := entry
    have hre : rootContains re p = false := h re he (List.mem_cons_self _ _)
    have hrest : lookupScan p rest = none :=
      ih (fun r h2 hm => h r h2 (List.mem_cons_of_mem _ hm))
    simp [lookupScan, hrest, hre]

/-- A bound client stays bound to the same root forever. -/
theorem runClient_some (ops : List ClientOp) (s : ClientState) (h : Nat)
    (hs : s.virtualizationRootHandle = some h) :
    (runClient s ops).virtualizationRootHandle = some h := by
  induction ops generalizing s with
  | nil => exact hs
  | cons op rest ih =>
    cases op with
    | registerRoot h2 =>
      have hstep : clientStep s (ClientOp.registerRoot h2) = s := by
        simp [clientStep, hs]
      rw [runClient, hstep]
      exact ih s hs
    | sendMsg => exact ih s hs
    | respond id => exact ih s hs
    | closeClient => exact ih s hs

/-- An unbound client ends bound to the first registered root. -/
theorem runClient_none (ops : List ClientOp) (s : ClientState)
    (hs : s.virtualizationRootHandle = none) :
    (runClient s ops).virtualizationRootHandle = firstRegister ops := by
  induction ops generalizing s with
  | nil => exact hs
  | cons op rest ih =>
    cases op with
    | registerRoot h2 =>
      have hstep : clientStep s (ClientOp.registerRoot h2) = ⟨some h2⟩ := by
        simp [clientStep, hs]
      rw [runClient, hstep, firstRegister]
      exact runClient_some rest ⟨some h2⟩ h2 rfl
    | sendMsg => rw [runClient, clientStep, firstRegister]; exact ih s hs
    | respond id => rw [runClient, clientStep, firstRegister]; exact ih s hs
    | closeClient => rw [runClient, clientStep, firstRegister]; exact ih s hs

/-- A trace with no registration attempt binds nothing. -/
theorem firstRegister_eq_none (ops : List ClientOp)
    (h : ∀ h2, ClientOp.registerRoot h2 ∉ ops) : firstRegister ops = none := by
  induction ops with
  | nil => rfl
  | cons op rest ih =>
    have hrest : ∀ h2, ClientOp.registerRoot h2 ∉ rest :=
      fun h2 hmem => h h2 (List.mem_cons_of_mem _ hmem)
    cases op with
    | registerRoot h2 => exact absurd (List.mem_cons_self _ _) (h h2)
    | sendMsg => rw [firstRegister]; exact ih hrest
    | respond id => rw [firstRegister]; exact ih hrest
    | closeClient => rw [firstRegister]; exact ih hrest

/-- The first registered root is a registration from the trace. -/
theorem firstRegister_mem (ops : List ClientOp) (h : Nat)
    (hfr : firstRegister ops = some h) : ClientOp.registerRoot h ∈ ops := by
  induction ops with
  | nil => cases hfr
  | cons op rest ih =>
    cases op with
    | registerRoot h2 =>
      rw [firstRegister] at hfr
      rw [Option.some_inj.mp hfr]
      exact List.mem_cons_self _ _
    | sendMsg =>
      rw [firstRegister] at hfr
      exact List.mem_cons_of_mem _ (ih hfr)
    | respond id =>
      rw [firstRegister] at hfr
      exact List.mem_cons_of_mem _ (ih hfr)
    | closeClient =>
      rw [firstRegister] at hfr
      exact List.mem_cons_of_mem _ (ih hfr)

/-- C1, counterexample to the claim as stated: with
`sizeof(T) = 2^34` (a legal object size on the 64-bit target) and
`arrayLength = 2^30`, the true byte count `2^64` exceeds `UINT32_MAX`,
yet the 64-bit product wraps to `0`, the overflow check passes, and
`Memory_Alloc(0)` is called. -/
theorem C1_counterexample :
    UINT32_MAX < 1073741824 * 17179869184 ∧
    Memory_AllocArray 17179869184 1073741824 (fun s => some s) = (some 0, [0]) := by
  constructor
  · decide
  · rfl

/-- C1 (amended): for every element size and every `arrayLength` (a
`uint32_t`), if `arrayLength * sizeof(T)` exceeds `UINT32_MAX` and does
not itself overflow the 64-bit `size_t` computation, then
`Memory_AllocArray` returns `nullptr` and never calls `Memory_Alloc`. -/
theorem C1_overflow_rejected (sizeofT arrayLength : Nat)
    (_hlen : arrayLength < 4294967296)
    (h1 : UINT32_MAX < arrayLength * sizeofT)
    (h2 : arrayLength * sizeofT < SIZE_T_MOD)
    (alloc : Nat → Option Nat) :
    Memory_AllocArray sizeofT arrayLength alloc = (none, []) :=
  allocArray_of_lt_mod sizeofT arrayLength h2 alloc h1

/-- Witness for C1: `arrayLength = 2^31`, `sizeof(T) = 4` overflows the
32-bit bound and is rejected without an allocator call. -/
theorem C1_overflow_rejected_witness :
    Memory_AllocArray 4 2147483648 (fun s => some s) = (none, []) :=
  C1_overflow_rejected 4 2147483648 (by decide) (by decide) (by decide)
    (fun s => some s)

/-- C2, counterexample to the claim as stated: in a release build
(`machAssert = false`) a contract-violating size
(`arrayLength = 2^31 + 1`, `sizeof(T) = 2`, byte size `2^32 + 2`) is not
caught: the assertion expands to nothing and `Memory_Free` is reached
with the size truncated to `2`. -/
theorem C2_counterexample :
    UINT32_MAX < 2147483649 * 2 ∧
    Memory_FreeArray false 2 2147483649 = FreeOutcome.freed 2 := by
  constructor
  · decide
  · rfl

/-- C2 (amended): a `Memory_FreeArray` call whose 64-bit byte size
exceeds `UINT32_MAX` is caught by the assertion in debug builds
(`MACH_ASSERT` on); in release builds the assertion expands to nothing
and `Memory_Free` proceeds with the byte size truncated to 32 bits. -/
theorem C2_assert_behavior (sizeofT arrayLength : Nat)
    (h : UINT32_MAX < (arrayLength * sizeofT) % SIZE_T_MOD) :
    Memory_FreeArray true sizeofT arrayLength = FreeOutcome.assertFailed ∧
    Memory_FreeArray false sizeofT arrayLength =
      FreeOutcome.freed ((arrayLength * sizeofT) % SIZE_T_MOD % 4294967296) := by
  unfold Memory_FreeArray
  constructor
  · simp [h]
  · simp

/-- Witness for C2: the violating size `2^32 + 2` trips the debug
assertion and is truncated to `2` in release. -/
theorem C2_assert_behavior_witness :
    Memory_FreeArray true 2 2147483649 = FreeOutcome.assertFailed ∧
    Memory_FreeArray false 2 2147483649 =
      FreeOutcome.freed (2147483649 * 2 % SIZE_T_MOD % 4294967296) :=
  C2_assert_behavior 2 2147483649 (by decide)

/-- C3: delivering a response for an identifier that is not pending is a
no-op (unchanged state, nobody woken); for a pending identifier (under
the no-duplicates channel invariant) the entry is removed and exactly one
caller is woken. -/
theorem C3_response_correlation (c : Channel) (messageId : Nat)
    (hnodup : c.pendingRequests.Nodup) :
    (messageId ∉ c.pendingRequests →
      kernelMessageResponse c messageId = (c, 0)) ∧
    (messageId ∈ c.pendingRequests →
      (kernelMessageResponse c messageId).1.pendingRequests =
        c.pendingRequests.erase messageId ∧
      messageId ∉ (kernelMessageResponse c messageId).1.pendingRequests ∧
      (kernelMessageResponse c messageId).2 = 1 ∧
      (kernelMessageResponse c messageId).1.chanOpen = c.chanOpen ∧
      (kernelMessageResponse c messageId).1.nextMessageId = c.nextMessageId) := by
  constructor
  · intro hnot
    unfold kernelMessageResponse
    simp [hnot]
  · intro hmem
    unfold kernelMessageResponse
    rw [if_pos hmem]
    exact ⟨rfl, not_mem_erase_of_nodup hnodup, rfl, rfl, rfl⟩

/-- Witness for C3: on a channel with pending ids `[3, 5]`, responding to
the unknown id `7` is a no-op, and responding to the pending id `5`
removes it and wakes one caller. -/
theorem C3_response_correlation_witness :
    (7 ∉ (Channel.mk true 6 [3, 5]).pendingRequests →
      kernelMessageResponse (Channel.mk true 6 [3, 5]) 7 =
        (Channel.mk true 6 [3, 5], 0)) ∧
    (5 ∈ (Channel.mk true 6 [3, 5]).pendingRequests →
      (kernelMessageResponse (Channel.mk true 6 [3, 5]) 5).1.pendingRequests =
        (Channel.mk true 6 [3, 5]).pendingRequests.erase 5 ∧
      5 ∉ (kernelMessageResponse (Channel.mk true 6 [3, 5]) 5).1.pendingRequests ∧
      (kernelMessageResponse (Channel.mk true 6 [3, 5]) 5).2 = 1 ∧
      (kernelMessageResponse (Channel.mk true 6 [3, 5]) 5).1.chanOpen =
        (Channel.mk true 6 [3, 5]).chanOpen ∧
      (kernelMessageResponse (Channel.mk true 6 [3, 5]) 5).1.nextMessageId =
        (Channel.mk true 6 [3, 5]).nextMessageId) := by
  have h73 := C3_response_correlation (Channel.mk true 6 [3, 5]) 7 (by decide)
  have h55 := C3_response_correlation (Channel.mk true 6 [3, 5]) 5 (by decide)
  exact ⟨h73.1, h55.2⟩

/-- C4: closing a channel with `K` pending requests produces exactly `K`
resolutions, all `ProviderDisconnected`, resolves each pending id exactly
once (under the no-duplicates invariant), leaves `pendingRequests` empty,
and reaches the terminal `Closed` state: a later response wakes nobody
and a later send fails, with the channel staying `Closed`. -/
theorem C4_close_drains_pending (c : Channel)
    (hnodup : c.pendingRequests.Nodup) :
    (closeChannel c).2.length = c.pendingRequests.length ∧
    (∀ r ∈ (closeChannel c).2, r.2 = ChanFailure.providerDisconnected) ∧
    (∀ id ∈ c.pendingRequests,
      countOccur (id, ChanFailure.providerDisconnected) (closeChannel c).2 = 1) ∧
    (closeChannel c).1.pendingRequests = [] ∧
    (closeChannel c).1.chanOpen = false ∧
    (∀ id, kernelMessageResponse (closeChannel c).1 id =
      ((closeChannel c).1, 0)) ∧
    sendRequest (closeChannel c).1 = none := by
  refine ⟨by simp [closeChannel], ?_, ?_, rfl, rfl, ?_, ?_⟩
  · intro r hr
    unfold closeChannel at hr
    simp only [List.mem_map] at hr
    obtain ⟨id, _, rfl⟩ := hr
    rfl
  · intro id hid
    exact countOccur_map_one hnodup hid
  · intro id
    unfold kernelMessageResponse closeChannel
    simp
  · unfold sendRequest closeChannel
    simp

/-- Witness for C4: closing a channel with pending ids `[2, 4, 7]`
resolves all three with `ProviderDisconnected` and empties the table. -/
theorem C4_close_drains_pending_witness :
    (closeChannel (Channel.mk true 8 [2, 4, 7])).2.length =
      (Channel.mk true 8 [2, 4, 7]).pendingRequests.length ∧
    (∀ r ∈ (closeChannel (Channel.mk true 8 [2, 4, 7])).2,
      r.2 = ChanFailure.providerDisconnected) ∧
    (∀ id ∈ (Channel.mk true 8 [2, 4, 7]).pendingRequests,
      countOccur (id, ChanFailure.providerDisconnected)
        (closeChannel (Channel.mk true 8 [2, 4, 7])).2 = 1) ∧
    (closeChannel (Channel.mk true 8 [2, 4, 7])).1.pendingRequests = [] ∧
    (closeChannel (Channel.mk true 8 [2, 4, 7])).1.chanOpen = false ∧
    (∀ id, kernelMessageResponse (closeChannel (Channel.mk true 8 [2, 4, 7])).1 id =
      ((closeChannel (Channel.mk true 8 [2, 4, 7])).1, 0)) ∧
    sendRequest (closeChannel (Channel.mk true 8 [2, 4, 7])).1 = none :=
  C4_close_drains_pending (Channel.mk true 8 [2, 4, 7]) (by decide)

/-- C5: `lookup` returns the most specific component-aligned registered
root containing the query.  Concretely, after `register("/a/b", ch)` on
the empty registry, `lookup("/a/b/c")` returns `ch`'s handle while the
non-component-aligned `lookup("/a/bc")` returns `NotFound`; in general a
successful lookup names a registered containing root of maximal depth,
and a path contained in no registered root yields `NotFound`. -/
theorem C5_lookup_most_specific (ch : Nat) :
    Registry.empty.registerRoot "/a/b" ch = some (Registry.mk [("/a/b", ch)]) ∧
    (Registry.mk [("/a/b", ch)]).lookupPath "/a/b/c" = some ch ∧
    (Registry.mk [("/a/b", ch)]).lookupPath "/a/bc" = none ∧
    (∀ reg p h, Registry.lookupPath reg p = some h →
      ∃ r, (r, h) ∈ reg.roots ∧ rootContains r p = true ∧
        ∀ r2 h2, (r2, h2) ∈ reg.roots → rootContains r2 p = true →
          (splitPath r2).length ≤ (splitPath r).length) ∧
    (∀ reg p, (∀ r h2, (r, h2) ∈ reg.roots → rootContains r p = false) →
      Registry.lookupPath reg p = none) := by
  refine ⟨rfl, ?_, ?_, ?_, ?_⟩
  · have hc : rootContains "/a/b" "/a/b/c" = true := by decide
    simp [Registry.lookupPath, lookupScan, hc]
  · have hc : rootContains "/a/b" "/a/bc" = false := by decide
    simp [Registry.lookupPath, lookupScan, hc]
  · intro reg p h hlook
    unfold Registry.lookupPath at hlook
    rcases hscan : lookupScan p reg.roots with _ | ⟨r, h'⟩
    · rw [hscan] at hlook
      cases hlook
    · rw [hscan] at hlook
      have hh : h' = h := Option.some_inj.mp hlook
      subst hh
      obtain ⟨hm, hcr, hmax⟩ := lookupScan_spec p reg.roots r h' hscan
      exact ⟨r, hm, hcr, hmax⟩
  · intro reg p hnone
    unfold Registry.lookupPath
    rw [lookupScan_eq_none p reg.roots hnone]
    rfl

/-- C6: along any lifetime trace of a channel, the assigned message
identifiers are pairwise distinct; the counter is monotone; and on any
state satisfying the channel invariant (every pending id below the
counter: true of every reachable state) a successful send assigns an
identifier that does not collide with any still-pending identifier. -/
theorem C6_message_ids_distinct (c : Channel) (ops : List ChanOp)
    (hinv : pendingBounded c) :
    ((runOps c ops).2).Nodup ∧
    c.nextMessageId ≤ (runOps c ops).1.nextMessageId ∧
    pendingBounded (runOps c ops).1 ∧
    (∀ id ∈ (runOps c ops).2, id ∉ c.pendingRequests) ∧
    (∀ c2 r, pendingBounded c2 → sendRequest c2 = some r →
      r.2 ∉ c2.pendingRequests) := by
  refine ⟨(runOps_pairwise ops c).imp Nat.ne_of_lt, (runOps_lb ops c).2,
    runOps_pendingBounded ops c hinv, ?_, ?_⟩
  · intro id hmem
    have := (runOps_lb ops c).1 id hmem
    intro hpend
    exact absurd (hinv id hpend) (Nat.not_lt.mpr this)
  · intro c2 r hb hsend
    unfold sendRequest at hsend
    by_cases hopen : c2.chanOpen = true
    · rw [if_pos hopen] at hsend
      have hr : r = (Channel.mk true (c2.nextMessageId + 1)
          (c2.nextMessageId :: c2.pendingRequests), c2.nextMessageId) :=
        ((Option.some.injEq _ _).mp hsend).symm
      subst hr
      intro hpend
      exact absurd (hb _ hpend) (Nat.lt_irrefl _)
    · rw [if_neg hopen] at hsend
      cases hsend

/-- Witness for C6: a fresh channel run through three sends and an
interleaved response assigns pairwise distinct identifiers. -/
theorem C6_message_ids_distinct_witness :
    ((runOps Channel.connect
      [ChanOp.send, ChanOp.send, ChanOp.respond 0, ChanOp.send]).2).Nodup ∧
    Channel.connect.nextMessageId ≤
      (runOps Channel.connect
        [ChanOp.send, ChanOp.send, ChanOp.respond 0, ChanOp.send]).1.nextMessageId ∧
    pendingBounded (runOps Channel.connect
      [ChanOp.send, ChanOp.send, ChanOp.respond 0, ChanOp.send]).1 ∧
    (∀ id ∈ (runOps Channel.connect
        [ChanOp.send, ChanOp.send, ChanOp.respond 0, ChanOp.send]).2,
      id ∉ Channel.connect.pendingRequests) ∧
    (∀ c2 r, pendingBounded c2 → sendRequest c2 = some r →
      r.2 ∉ c2.pendingRequests) :=
  C6_message_ids_distinct Channel.connect
    [ChanOp.send, ChanOp.send, ChanOp.respond 0, ChanOp.send]
    (by intro id h; exact absurd h (List.not_mem_nil id))

/-- C8: when `arrayLength * sizeof(T)` fits the 32-bit bound,
`Memory_AllocArray` passes exactly that byte size to `Memory_Alloc` and
`Memory_FreeArray` (in any build flavour) passes the same byte size to
`Memory_Free`, so a free with the allocation's type and length satisfies
the allocator's matching-size contract. -/
theorem C8_alloc_free_size_roundtrip (sizeofT arrayLength : Nat)
    (h : arrayLength * sizeofT ≤ UINT32_MAX)
    (alloc : Nat → Option Nat) (machAssert : Bool) :
    (Memory_AllocArray sizeofT arrayLength alloc).2 = [arrayLength * sizeofT] ∧
    Memory_FreeArray machAssert sizeofT arrayLength =
      FreeOutcome.freed (arrayLength * sizeofT) := by
  have hlt : arrayLength * sizeofT < SIZE_T_MOD :=
    lt_of_le_of_lt h (by decide)
  have hmod : (arrayLength * sizeofT) % SIZE_T_MOD = arrayLength * sizeofT :=
    Nat.mod_eq_of_lt hlt
  have hcast : arrayLength * sizeofT % 4294967296 = arrayLength * sizeofT :=
    Nat.mod_eq_of_lt (lt_of_le_of_lt h (by decide))
  constructor
  · unfold Memory_AllocArray
    simp only [hmod, hcast]
    simp [Nat.not_lt.mpr h]
  · unfold Memory_FreeArray
    simp only [hmod, hcast]
    simp [Nat.not_lt.mpr h]

/-- Witness for C8: allocating and freeing `100` elements of size `8`
both use byte size `800`. -/
theorem C8_alloc_free_size_roundtrip_witness :
    (Memory_AllocArray 8 100 (fun s => some s)).2 = [100 * 8] ∧
    Memory_FreeArray true 8 100 = FreeOutcome.freed (100 * 8) :=
  C8_alloc_free_size_roundtrip 8 100 (by decide) (fun s => some s) true

/-- C9: a zero-length allocation computes byte size `0`, passes the
overflow check, forwards `Memory_Alloc(0)`, and returns the allocator's
result unchanged. -/
theorem C9_zero_length_alloc (sizeofT : Nat) (alloc : Nat → Option Nat) :
    Memory_AllocArray sizeofT 0 alloc = (alloc 0, [0]) := by
  unfold Memory_AllocArray
  simp

/-- C10: a provider user client is bound to at most one virtualization
root: it starts at `RootHandle_None`, stays `none` until the first
successful registration, afterwards holds exactly the root of that first
registration (a root actually registered through this client), and every
individual operation preserves an existing binding. -/
theorem C10_single_root_binding (ops : List ClientOp) :
    ClientState.init.virtualizationRootHandle = none ∧
    (runClient ClientState.init ops).virtualizationRootHandle =
      firstRegister ops ∧
    ((∀ h, ClientOp.registerRoot h ∉ ops) →
      (runClient ClientState.init ops).virtualizationRootHandle = none) ∧
    (∀ h, (runClient ClientState.init ops).virtualizationRootHandle = some h →
      ClientOp.registerRoot h ∈ ops) ∧
    (∀ s h op, s.virtualizationRootHandle = some h →
      (clientStep s op).virtualizationRootHandle = some h) := by
  have hrun : (runClient ClientState.init ops).virtualizationRootHandle =
      firstRegister ops := runClient_none ops ClientState.init rfl
  refine ⟨rfl, hrun, ?_, ?_, ?_⟩
  · intro hno
    rw [hrun]
    exact firstRegister_eq_none ops hno
  · intro h hsome
    rw [hrun] at hsome
    exact firstRegister_mem ops h hsome
  · intro s h op hs
    cases op with
    | registerRoot h2 => simp [clientStep, hs]
    | sendMsg => exact hs
    | respond id => exact hs
    | closeClient => exact hs

end VFSForGit
